import Mathlib

/-!
# Sinyalist seismic P-wave detector — shallow embedding

Shallow embedding of `seismic_detector.hpp` (namespace `sinyalist::seismic`).
All C++ `float` arithmetic is idealised as exact rational arithmetic (`ℚ`):
decimal literals of the source are taken at their exact decimal value, and
`std::sqrt` is modelled by the computable `ratSqrt` below (zero on
non-positive inputs, positive on positive inputs, exact on perfect squares
of rationals).  `std::max`/`std::min`/`std::clamp` on floats become the
corresponding total-order operations on `ℚ`; `std::clamp` keeps the exact
branch structure of the library implementation (`clampQ`).  Machine
integers (`uint32_t`, `uint64_t`) become `ℕ`; the counters involved never
approach their wrap-around in any behaviour considered here.
The two injected callbacks are modelled by returning, from each
`processSample` call, the list of `SeismicEvent` and `DebugTelemetry`
records that the call hands to the event and debug callbacks.
-/

/- Batteries marks the arithmetic of `Rat` `@[irreducible]`, which blocks
the reduction that `decide` needs to evaluate the executable model on
concrete inputs.  Restore default reducibility for those operations. -/
set_option allowUnsafeReducibility true in
attribute [semireducible] Rat.add Rat.mul Rat.sub Rat.inv

set_option maxRecDepth 1000000

namespace Sinyalist

/-- Repeated squaring from 2: the first iterate `p` of `p ↦ p²` with
`n < p²` (structural recursion on fuel, so that it reduces inside the
kernel; fuel 64 covers every `n < 2^(2^64)`). -/
def seedAux : ℕ → ℕ → ℕ → ℕ
  | 0, _, p => p
  | f + 1, n, p => if n < p * p then p else seedAux f n (p * p)

/-- Monotonically decreasing integer Newton iteration for `⌊√n⌋`,
stopping at the first fixpoint. -/
def newtonAux : ℕ → ℕ → ℕ → ℕ
  | 0, _, x => x
  | f + 1, n, x =>
      let y := (x + n / x) / 2
      if y < x then newtonAux f n y else x

/-- Integer square root, `⌊√n⌋`, by Newton iteration from a
power-of-two seed above `√n`. -/
def isqrt (n : ℕ) : ℕ :=
  if n ≤ 1 then n else newtonAux n n (seedAux 64 n 2)

/-- Truncation of a rational to a natural number, modelling the C++
conversion `uint32_t(f)` of a non-negative float. -/
def truncNat (q : ℚ) : ℕ := q.num.toNat / q.den

/-- Computable stand-in for `std::sqrt` on the rational idealisation:
zero on non-positive inputs, positive on positive inputs, and exact on
squares of rationals. -/
def ratSqrt (x : ℚ) : ℚ :=
  if x ≤ 0 then 0 else (isqrt (x.num.toNat * x.den) : ℚ) / (x.den : ℚ)

/-- `std::clamp(v, lo, hi)` with the branch structure of the C++ library:
`v < lo ? lo : (hi < v ? hi : v)`. -/
def clampQ (v lo hi : ℚ) : ℚ :=
  if v < lo then lo else if hi < v then hi else v

/-- `sinyalist::seismic::Config` with its default member initialisers. -/
structure Config where
  sample_rate_hz : ℚ := 50
  hp_alpha : ℚ := 98/100
  sta_window : ℕ := 25
  lta_window : ℕ := 500
  sta_lta_trigger : ℚ := 9/2
  sta_lta_detrigger : ℚ := 3/2
  min_amplitude_g : ℚ := 12/1000
  min_sustained : ℕ := 15
  axis_coherence_min : ℚ := 2/5
  cooldown : ℕ := 500
  pwave_freq_min : ℚ := 1
  pwave_freq_max : ℚ := 15
  calib_window : ℕ := 2500
  adaptive_trig_min : ℚ := 7/2
  adaptive_trig_max : ℚ := 8
  periodicity_thresh : ℚ := 3/5
deriving DecidableEq

/-- `Config::dt()`. -/
def Config.dt (c : Config) : ℚ := 1 / c.sample_rate_hz

/-- `sinyalist::seismic::AlertLevel`. -/
inductive AlertLevel | NONE | TREMOR | MODERATE | SEVERE | CRITICAL
deriving DecidableEq

/-- `sinyalist::seismic::RejectCode`. -/
inductive RejectCode | NONE | AXIS_COHERENCE | FREQUENCY | PERIODICITY | ENERGY_DIST
deriving DecidableEq

/-- `sinyalist::seismic::SeismicEvent`. -/
structure SeismicEvent where
  level : AlertLevel
  peak_g : ℚ
  sta_lta : ℚ
  freq_hz : ℚ
  time_ms : ℕ
  duration : ℕ
deriving DecidableEq

/-- `sinyalist::seismic::DebugTelemetry` (`state` is the `uint8_t` cast of
the detector state; the field named `ratio` in the source is `ratioV`
here). -/
structure DebugTelemetry where
  raw_mag : ℚ
  filt_mag : ℚ
  sta : ℚ
  lta : ℚ
  ratioV : ℚ
  baseline_var : ℚ
  adaptive_trigger : ℚ
  state : ℕ
  reject : RejectCode
  ts : ℕ
deriving DecidableEq

/-- `sinyalist::seismic::HighPassState`. -/
structure HighPassState where
  prev_raw : ℚ := 0
  prev_filt : ℚ := 0
deriving DecidableEq

/-- `HighPassState::process`: returns the output and the updated state. -/
def HighPassState.process (st : HighPassState) (raw a : ℚ) : ℚ × HighPassState :=
  let f := a * (st.prev_filt + raw - st.prev_raw)
  (f, ⟨raw, f⟩)

/-- `HighPassState::reset`. -/
def HighPassState.reset (_ : HighPassState) : HighPassState := ⟨0, 0⟩

/-- `sinyalist::seismic::Biquad` (Direct Form II Transposed section). -/
structure Biquad where
  b0 : ℚ := 1
  b1 : ℚ := 0
  b2 : ℚ := 0
  a1 : ℚ := 0
  a2 : ℚ := 0
  w1 : ℚ := 0
  w2 : ℚ := 0
deriving DecidableEq

/-- `Biquad::process`: returns the output and the updated state. -/
def Biquad.process (bq : Biquad) (x : ℚ) : ℚ × Biquad :=
  let y := bq.b0 * x + bq.w1
  let w1n := bq.b1 * x - bq.a1 * y + bq.w2
  let w2n := bq.b2 * x - bq.a2 * y
  (y, { bq with w1 := w1n, w2 := w2n })

/-- `Biquad::reset`. -/
def Biquad.reset (bq : Biquad) : Biquad := { bq with w1 := 0, w2 := 0 }

/-- `sinyalist::seismic::BandPassFilter`: cascaded high-pass and low-pass
biquads with the hard-coded 50 Hz coefficients. -/
structure BandPassFilter where
  hp : Biquad := ⟨9429/10000, -18858/10000, 9429/10000, -18805/10000, 8853/10000, 0, 0⟩
  lp : Biquad := ⟨2929/10000, 5858/10000, 2929/10000, 0, 1716/10000, 0, 0⟩
deriving DecidableEq

/-- `BandPassFilter::process`: low-pass applied to the high-pass output. -/
def BandPassFilter.process (f : BandPassFilter) (x : ℚ) : ℚ × BandPassFilter :=
  let p := f.hp.process x
  let q := f.lp.process p.1
  (q.1, ⟨p.2, q.2⟩)

/-- `BandPassFilter::reset`. -/
def BandPassFilter.reset (f : BandPassFilter) : BandPassFilter :=
  ⟨f.hp.reset, f.lp.reset⟩

/-- `GravityEstimator::kAlpha = 0.01245f`. -/
def kAlpha : ℚ := 1245/100000

/-- `sinyalist::seismic::GravityEstimator`. -/
structure GravityEstimator where
  gx : ℚ := 0
  gy : ℚ := 0
  gz : ℚ := -1
deriving DecidableEq

/-- `GravityEstimator::update`. -/
def GravityEstimator.update (g : GravityEstimator) (ax ay az : ℚ) : GravityEstimator :=
  ⟨g.gx + kAlpha * (ax - g.gx), g.gy + kAlpha * (ay - g.gy), g.gz + kAlpha * (az - g.gz)⟩

/-- `GravityEstimator::reset`. -/
def GravityEstimator.reset (_ : GravityEstimator) : GravityEstimator := ⟨0, 0, -1⟩

/-- `sinyalist::seismic::Ring<float, MAX_N>`: the backing array `b_` is a
list of length `maxN`, with head index `h`, live count `n`, bound capacity
`cap`, running sum `s` and running sum of squares `sq`. -/
structure Ring where
  maxN : ℕ
  b : List ℚ
  h : ℕ
  n : ℕ
  cap : ℕ
  s : ℚ
  sq : ℚ
deriving DecidableEq

/-- A freshly default-constructed `Ring<α, MAX_N>`: zeroed array,
`cap_ = MAX_N`. -/
def Ring.init (m : ℕ) : Ring := ⟨m, List.replicate m 0, 0, 0, m, 0, 0⟩

/-- `Ring::reset`. -/
def Ring.reset (r : Ring) : Ring :=
  { r with h := 0, n := 0, s := 0, sq := 0, b := List.replicate r.maxN 0 }

/-- `Ring::set_cap`: bind the capacity (clamping illegal values to
`MAX_N`) and reset. -/
def Ring.set_cap (r : Ring) (c : ℕ) : Ring :=
  Ring.reset { r with cap := if 0 < c ∧ c ≤ r.maxN then c else r.maxN }

/-- `Ring::push`. -/
def Ring.push (r : Ring) (v : ℚ) : Ring :=
  let old := r.b.getD r.h 0
  let r1 := if r.n = r.cap
    then { r with s := r.s - old, sq := r.sq - old * old }
    else { r with n := r.n + 1 }
  { r1 with b := r1.b.set r1.h v, s := r1.s + v, sq := r1.sq + v * v,
            h := (r1.h + 1) % r1.cap }

/-- `Ring::avg`. -/
def Ring.avg (r : Ring) : ℚ := if 0 < r.n then r.s / (r.n : ℚ) else 0

/-- `Ring::var`. -/
def Ring.var (r : Ring) : ℚ :=
  if r.n < 2 then 0 else
    let m := r.avg
    let v := r.sq / (r.n : ℚ) - m * m
    if 0 < v then v else 0

/-- `Ring::full`. -/
def Ring.full (r : Ring) : Bool := r.n = r.cap

/-- `Ring::at` (named `atIdx` here because `at` is reserved in Lean). -/
def Ring.atIdx (r : Ring) (i : ℕ) : ℚ :=
  if i < r.n then r.b.getD ((r.h + r.cap - r.n + i) % r.cap) 0 else 0

/-- The internal state enum `SeismicDetector::S`. -/
inductive S | IDLE | CONFIRM | TRIGGERED
deriving DecidableEq

/-- The `uint8_t` cast of the state enum, as used by `emit_dbg`. -/
def S.code : S → ℕ
  | S.IDLE => 0
  | S.CONFIRM => 1
  | S.TRIGGERED => 2

/-- One triaxial accelerometer sample with its timestamp, the argument
tuple of `process_sample`. -/
structure Sample where
  ax : ℚ
  ay : ℚ
  az : ℚ
  ts : ℕ
deriving DecidableEq

/-- The complete mutable state of a `SeismicDetector` instance. -/
structure DetState where
  cfg : Config
  hx : HighPassState
  hy : HighPassState
  hz : HighPassState
  bpx : BandPassFilter
  bpy : BandPassFilter
  bpz : BandPassFilter
  grav : GravityEstimator
  sta : Ring
  lta : Ring
  cal : Ring
  per : Ring
  st : S
  sc : ℕ
  dur : ℕ
  cd : ℕ
  zc : ℕ
  pk : ℚ
  t0 : ℕ
  ps : Bool
  ap0 : ℚ
  ap1 : ℚ
  ap2 : ℚ
  ae0 : ℚ
  ae1 : ℚ
  ae2 : ℚ
  total : ℕ
  lr : RejectCode
deriving DecidableEq

/-- `SeismicDetector::apply`: re-bind the four ring capacities from the
current configuration. -/
def applyCfg (σ : DetState) : DetState :=
  { σ with sta := σ.sta.set_cap σ.cfg.sta_window,
           lta := σ.lta.set_cap σ.cfg.lta_window,
           cal := σ.cal.set_cap σ.cfg.calib_window,
           per := σ.per.set_cap (truncNat (4 * σ.cfg.sample_rate_hz)) }

/-- A freshly constructed `SeismicDetector` (member initialisers followed
by the constructor's call to `apply()`). -/
def initDet (cfg : Config) : DetState :=
  applyCfg
    { cfg := cfg
      hx := {}, hy := {}, hz := {}
      bpx := {}, bpy := {}, bpz := {}
      grav := {}
      sta := Ring.init 100, lta := Ring.init 1000
      cal := Ring.init 5000, per := Ring.init 200
      st := S.IDLE, sc := 0, dur := 0, cd := 0, zc := 0
      pk := 0, t0 := 0, ps := false
      ap0 := 0, ap1 := 0, ap2 := 0, ae0 := 0, ae1 := 0, ae2 := 0
      total := 0, lr := RejectCode.NONE }

/-- `SeismicDetector::update_config`: store the new configuration and
re-apply the ring capacities. -/
def update_config (σ : DetState) (c : Config) : DetState :=
  applyCfg { σ with cfg := c }

/-- `SeismicDetector::reset_st`. -/
def reset_st (σ : DetState) : DetState :=
  { σ with st := S.IDLE, sc := 0, dur := 0, pk := 0, t0 := 0,
           cd := σ.cfg.cooldown, zc := 0, ps := false,
           ap0 := 0, ap1 := 0, ap2 := 0, ae0 := 0, ae1 := 0, ae2 := 0,
           lr := RejectCode.NONE }

/-- `SeismicDetector::reset`. -/
def resetDet (σ : DetState) : DetState :=
  { reset_st
      { σ with hx := σ.hx.reset, hy := σ.hy.reset, hz := σ.hz.reset,
               bpx := σ.bpx.reset, bpy := σ.bpy.reset, bpz := σ.bpz.reset,
               grav := σ.grav.reset,
               sta := σ.sta.reset, lta := σ.lta.reset,
               cal := σ.cal.reset, per := σ.per.reset }
    with total := 0 }

/-- `SeismicDetector::severity`. -/
def severity (g : ℚ) : AlertLevel :=
  if 40/100 ≤ g then AlertLevel.CRITICAL
  else if 15/100 ≤ g then AlertLevel.SEVERE
  else if 5/100 ≤ g then AlertLevel.MODERATE
  else if 1/100 ≤ g then AlertLevel.TREMOR
  else AlertLevel.NONE

/-- `SeismicDetector::fire`: the event record handed to the event
callback, built from the detector state at the call site. -/
def fireEv (σ : DetState) (ts : ℕ) (r : ℚ) : SeismicEvent :=
  let ds := (σ.sc : ℚ) * σ.cfg.dt
  let f := if 0 < ds then (σ.zc : ℚ) / (2 * ds) else 0
  ⟨severity σ.pk, σ.pk, r, f, σ.t0, σ.dur⟩

/-- `SeismicDetector::emit_dbg`: the telemetry record handed to the debug
callback. -/
def mkDbg (σ : DetState) (rm fm s l r bv atv : ℚ) (ts : ℕ) : DebugTelemetry :=
  ⟨rm, fm, s, l, r, bv, atv, σ.st.code, σ.lr, ts⟩

/-- `SeismicDetector::autocorr`: normalized autocorrelation peak of the
periodicity ring over the gait-band lag range. -/
def autocorr (cfg : Config) (per : Ring) : ℚ :=
  let n := per.n
  if n < 60 then 0 else
    let m := (((List.range n).map per.atIdx).sum) / (n : ℚ)
    let v := (((List.range n).map (fun i => (per.atIdx i - m) * (per.atIdx i - m))).sum)
    if v < 1/10000000000 then 0 else
      let l0 := truncNat (cfg.sample_rate_hz / (5/2))
      let l1 := truncNat (cfg.sample_rate_hz / (3/2))
      let lags := ((List.range (l1 + 1)).drop l0).filter (fun lag => lag < n / 2)
      lags.foldl (fun best lag =>
        let c := (((List.range (n - lag)).map
          (fun i => (per.atIdx i - m) * (per.atIdx (i + lag) - m))).sum) / v
        max best c) 0

/-- `SeismicDetector::check_reject`: the rejection cascade, evaluated on
the candidate state. -/
def check_reject (σ : DetState) : RejectCode :=
  let mx := max σ.ap0 (max σ.ap1 σ.ap2)
  let mn := min σ.ap0 (min σ.ap1 σ.ap2)
  if 0 < mx ∧ mn / mx < σ.cfg.axis_coherence_min then RejectCode.AXIS_COHERENCE
  else
    let ds := (σ.sc : ℚ) * σ.cfg.dt
    if 0 < ds ∧ ((σ.zc : ℚ) / (2 * ds) < σ.cfg.pwave_freq_min ∨
                 σ.cfg.pwave_freq_max < (σ.zc : ℚ) / (2 * ds)) then RejectCode.FREQUENCY
    else if σ.per.full ∧ σ.cfg.periodicity_thresh < autocorr σ.cfg σ.per then
      RejectCode.PERIODICITY
    else
      let te := σ.ae0 + σ.ae1 + σ.ae2
      if 0 < te ∧ 85/100 < max σ.ae0 (max σ.ae1 σ.ae2) / te then RejectCode.ENERGY_DIST
      else RejectCode.NONE

/-- The filter front end of `process_sample`: gravity update and
subtraction, band-pass, then the polish high-pass, per axis.  Returns the
three filtered axis values and the state with all filter members
updated. -/
def filtered (σ : DetState) (smp : Sample) : ℚ × ℚ × ℚ × DetState :=
  let grav' := σ.grav.update smp.ax smp.ay smp.az
  let lx := smp.ax - grav'.gx
  let ly := smp.ay - grav'.gy
  let lz := smp.az - grav'.gz
  let px := σ.bpx.process lx
  let py := σ.bpy.process ly
  let pz := σ.bpz.process lz
  let qx := σ.hx.process px.1 σ.cfg.hp_alpha
  let qy := σ.hy.process py.1 σ.cfg.hp_alpha
  let qz := σ.hz.process pz.1 σ.cfg.hp_alpha
  (qx.1, qy.1, qz.1,
    { σ with grav := grav', bpx := px.2, bpy := py.2, bpz := pz.2,
             hx := qx.2, hy := qy.2, hz := qz.2 })

/-- The filtered magnitude `mag = sqrt(ax²+ay²+az²)` of the current
sample. -/
def magOf (σ : DetState) (smp : Sample) : ℚ :=
  let f := filtered σ smp
  ratSqrt (f.1 * f.1 + f.2.1 * f.2.1 + f.2.2.1 * f.2.2.1)

/-- The state after the filter front end and the four ring pushes of the
current sample. -/
def afterPush (σ : DetState) (smp : Sample) : DetState :=
  let f := filtered σ smp
  let mag := magOf σ smp
  let σf := f.2.2.2
  { σf with sta := σf.sta.push mag, lta := σf.lta.push mag,
            cal := σf.cal.push mag, per := σf.per.push mag }

/-- The CONFIRM-branch per-sample update (`++sc_`, peak, per-axis peaks,
per-axis energies, zero-crossing bookkeeping). -/
def confirmUpd (σ : DetState) (ax ay az mag : ℚ) : DetState :=
  let sg := decide (0 ≤ ax)
  { σ with sc := σ.sc + 1, pk := max σ.pk mag,
           ap0 := max σ.ap0 |ax|, ap1 := max σ.ap1 |ay|, ap2 := max σ.ap2 |az|,
           ae0 := σ.ae0 + ax * ax, ae1 := σ.ae1 + ay * ay, ae2 := σ.ae2 + az * az,
           zc := if sg ≠ σ.ps then σ.zc + 1 else σ.zc, ps := sg }

/-- The state-machine switch at the tail of `process_sample`, evaluated on
the post-push state with the current filtered axes, magnitude, ratio and
adaptive threshold.  Returns the new state and the events fired. -/
def stateStep (σ : DetState) (ax ay az mag r atv : ℚ) (ts : ℕ) :
    DetState × List SeismicEvent :=
  match σ.st with
  | S.IDLE =>
      if atv ≤ r then
        ({ σ with st := S.CONFIRM, sc := 1, pk := mag, t0 := ts, zc := 0,
                  ps := decide (0 ≤ ax),
                  ap0 := |ax|, ap1 := |ay|, ap2 := |az|,
                  ae0 := ax * ax, ae1 := ay * ay, ae2 := az * az }, [])
      else (σ, [])
  | S.CONFIRM =>
      if atv ≤ r then
        let σc := confirmUpd σ ax ay az mag
        if σ.cfg.min_sustained ≤ σc.sc then
          let rc := check_reject σc
          if rc ≠ RejectCode.NONE then
            ({ σc with lr := rc, st := S.IDLE, cd := σ.cfg.cooldown }, [])
          else
            let σt := { σc with st := S.TRIGGERED, dur := σc.sc }
            (σt, [fireEv σt ts r])
        else (σc, [])
      else ({ σ with st := S.IDLE }, [])
  | S.TRIGGERED =>
      let σd := { σ with dur := σ.dur + 1, pk := max σ.pk mag }
      if r < σ.cfg.sta_lta_detrigger then
        (reset_st σd, [fireEv σd ts r])
      else (σd, [])

/-- `SeismicDetector::process_sample`.  Returns the new detector state,
the list of events handed to the event callback and the list of telemetry
records handed to the debug callback during the call. -/
def processSample (σ : DetState) (smp : Sample) :
    DetState × List SeismicEvent × List DebugTelemetry :=
  let σt := { σ with total := σ.total + 1 }
  if 0 < σt.cd then ({ σt with cd := σt.cd - 1 }, [], [])
  else
    let f := filtered σt smp
    let mag := magOf σt smp
    let σ1 := afterPush σt smp
    if ¬ σ1.lta.full then (σ1, [], [])
    else
      let s := σ1.sta.avg
      let l := σ1.lta.avg
      let bv := σ1.cal.var
      let atv := clampQ (σt.cfg.sta_lta_trigger + ratSqrt bv * 100)
                        σt.cfg.adaptive_trig_min σt.cfg.adaptive_trig_max
      if l < σt.cfg.min_amplitude_g then
        (σ1, [],
          if σt.total % 10 = 0 then [mkDbg σ1 mag mag s l 0 bv atv smp.ts] else [])
      else
        let r := s / l
        let dbgs := if σt.total % 10 = 0 then [mkDbg σ1 mag mag s l r bv atv smp.ts] else []
        let res := stateStep σ1 f.1 f.2.1 f.2.2.1 mag r atv smp.ts
        (res.1, res.2, dbgs)

/-- Run the detector over a list of samples, accumulating all events and
telemetry records in order. -/
def runDet (σ : DetState) : List Sample → DetState × List SeismicEvent × List DebugTelemetry
  | [] => (σ, [], [])
  | smp :: rest =>
      let r := processSample σ smp
      let rec' := runDet r.1 rest
      (rec'.1, r.2.1 ++ rec'.2.1, r.2.2 ++ rec'.2.2)

/-! ## Derived views of one `process_sample` call

The following definitions re-express the intermediate values of
`processSample` (they unfold to exactly the sub-terms the step
computes), so that specification predicates can name the sample's
short-term average, long-term average, ratio and adaptive threshold. -/

/-- The detector state after the counter increment, the filter front end
and the four ring pushes of one call. -/
def pushedOf (σ : DetState) (smp : Sample) : DetState :=
  afterPush { σ with total := σ.total + 1 } smp

/-- The short-term average `s` of the call. -/
def sOf (σ : DetState) (smp : Sample) : ℚ := (pushedOf σ smp).sta.avg

/-- The long-term average `l` of the call. -/
def lOf (σ : DetState) (smp : Sample) : ℚ := (pushedOf σ smp).lta.avg

/-- The baseline variance `bv` of the call (calibration-ring variance
after the push). -/
def bvOf (σ : DetState) (smp : Sample) : ℚ := (pushedOf σ smp).cal.var

/-- The adaptive trigger threshold `at` of the call. -/
def atOf (σ : DetState) (smp : Sample) : ℚ :=
  clampQ (σ.cfg.sta_lta_trigger + ratSqrt (bvOf σ smp) * 100)
         σ.cfg.adaptive_trig_min σ.cfg.adaptive_trig_max

/-- The STA/LTA ratio `r` of the call. -/
def rOf (σ : DetState) (smp : Sample) : ℚ := sOf σ smp / lOf σ smp

/-- The candidate state at the CONFIRM branch of the call (post-push
state with the CONFIRM bookkeeping applied). -/
def candOf (σ : DetState) (smp : Sample) : DetState :=
  let f := filtered { σ with total := σ.total + 1 } smp
  confirmUpd (pushedOf σ smp) f.1 f.2.1 f.2.2.1 (magOf { σ with total := σ.total + 1 } smp)

/-- The call is not swallowed by cooldown, the LTA ring is full after the
push, and the LTA guard arms the state machine. -/
@[reducible] def ArmedAt (σ : DetState) (smp : Sample) : Prop :=
  σ.cd = 0 ∧ (pushedOf σ smp).lta.full ∧ ¬ (lOf σ smp < σ.cfg.min_amplitude_g)

/-- The call is the CONFIRM→TRIGGERED candidate moment: armed, in
CONFIRM, ratio at or above the threshold, and the incremented sustained
count reaches `min_sustained` (this is where the rejection cascade is
evaluated). -/
@[reducible] def CascadeAt (σ : DetState) (smp : Sample) : Prop :=
  ArmedAt σ smp ∧ σ.st = S.CONFIRM ∧ atOf σ smp ≤ rOf σ smp ∧
    σ.cfg.min_sustained ≤ σ.sc + 1

/-- The call evaluates the cascade and some check fails (a rejection). -/
@[reducible] def RejectedAt (σ : DetState) (smp : Sample) : Prop :=
  CascadeAt σ smp ∧ check_reject (candOf σ smp) ≠ RejectCode.NONE

/-- The call evaluates the cascade and every check passes (the trigger
edge fires). -/
@[reducible] def TrigFireAt (σ : DetState) (smp : Sample) : Prop :=
  CascadeAt σ smp ∧ check_reject (candOf σ smp) = RejectCode.NONE

/-- The call is the de-trigger edge: armed, in TRIGGERED, and the ratio
has dropped below the exit threshold. -/
@[reducible] def DetrigAt (σ : DetState) (smp : Sample) : Prop :=
  ArmedAt σ smp ∧ σ.st = S.TRIGGERED ∧ rOf σ smp < σ.cfg.sta_lta_detrigger

/-! ## Basic step lemmas -/

/-- A call under active cooldown only advances the total sample counter
and decrements the cooldown counter; no other field changes and neither
callback is invoked. -/
theorem processSample_cooldown (σ : DetState) (smp : Sample) (h : 0 < σ.cd) :
    processSample σ smp = ({ σ with total := σ.total + 1, cd := σ.cd - 1 }, [], []) := by
  unfold processSample
  simp [h]

/-- `Ring.push` preserves the bound capacity. -/
theorem Ring.push_cap (r : Ring) (v : ℚ) : (r.push v).cap = r.cap := by
  unfold Ring.push
  split <;> rfl

/-- `Ring.push` preserves the backing capacity `MAX_N`. -/
theorem Ring.push_maxN (r : Ring) (v : ℚ) : (r.push v).maxN = r.maxN := by
  unfold Ring.push
  split <;> rfl

/-- `Ring.push` on a non-full ring grows the live count by one, on a full
ring keeps it. -/
theorem Ring.push_n (r : Ring) (v : ℚ) :
    (r.push v).n = if r.n = r.cap then r.n else r.n + 1 := by
  unfold Ring.push
  split <;> simp_all

/-- A call with no cooldown whose push leaves the LTA ring not yet full
returns right after the ring pushes: no events, no telemetry. -/
theorem processSample_notFull (σ : DetState) (smp : Sample)
    (h0 : σ.cd = 0) (hnf : ¬ (pushedOf σ smp).lta.full) :
    processSample σ smp = (pushedOf σ smp, [], []) := by
  unfold processSample
  dsimp only []
  rw [if_neg (by omega : ¬ 0 < σ.cd)]
  unfold pushedOf at hnf ⊢
  rw [if_pos hnf]

/-- A call with no cooldown, a full LTA ring and a long-term average
below `min_amplitude_g` is disarmed: the state machine is not consulted,
and only the (throttled) disarmed telemetry is produced. -/
theorem processSample_disarmed (σ : DetState) (smp : Sample)
    (h0 : σ.cd = 0) (hfull : (pushedOf σ smp).lta.full)
    (hamp : lOf σ smp < σ.cfg.min_amplitude_g) :
    processSample σ smp =
      (pushedOf σ smp, [],
        if (σ.total + 1) % 10 = 0
        then [mkDbg (pushedOf σ smp) (magOf { σ with total := σ.total + 1 } smp)
                (magOf { σ with total := σ.total + 1 } smp) (sOf σ smp) (lOf σ smp)
                0 (bvOf σ smp) (atOf σ smp) smp.ts]
        else []) := by
  unfold processSample
  dsimp only []
  rw [if_neg (by omega : ¬ 0 < σ.cd)]
  unfold pushedOf at hfull
  rw [if_neg (not_not_intro hfull)]
  unfold lOf pushedOf at hamp
  rw [if_pos hamp]
  rfl

/-- A call with no cooldown, a full LTA ring and a long-term average at
or above `min_amplitude_g` runs the state machine on the post-push state
with the sample's ratio and adaptive threshold, and produces the
(throttled) telemetry. -/
theorem processSample_armed (σ : DetState) (smp : Sample)
    (h0 : σ.cd = 0) (hfull : (pushedOf σ smp).lta.full)
    (hamp : ¬ (lOf σ smp < σ.cfg.min_amplitude_g)) :
    processSample σ smp =
      ((stateStep (pushedOf σ smp)
          (filtered { σ with total := σ.total + 1 } smp).1
          (filtered { σ with total := σ.total + 1 } smp).2.1
          (filtered { σ with total := σ.total + 1 } smp).2.2.1
          (magOf { σ with total := σ.total + 1 } smp)
          (rOf σ smp) (atOf σ smp) smp.ts).1,
       (stateStep (pushedOf σ smp)
          (filtered { σ with total := σ.total + 1 } smp).1
          (filtered { σ with total := σ.total + 1 } smp).2.1
          (filtered { σ with total := σ.total + 1 } smp).2.2.1
          (magOf { σ with total := σ.total + 1 } smp)
          (rOf σ smp) (atOf σ smp) smp.ts).2,
       if (σ.total + 1) % 10 = 0
       then [mkDbg (pushedOf σ smp) (magOf { σ with total := σ.total + 1 } smp)
               (magOf { σ with total := σ.total + 1 } smp) (sOf σ smp) (lOf σ smp)
               (rOf σ smp) (bvOf σ smp) (atOf σ smp) smp.ts]
       else []) := by
  unfold processSample
  dsimp only []
  rw [if_neg (by omega : ¬ 0 < σ.cd)]
  unfold pushedOf at hfull
  rw [if_neg (not_not_intro hfull)]
  unfold lOf pushedOf at hamp
  rw [if_neg hamp]
  rfl

/-- Any run no longer than the pending cooldown only advances the total
counter and counts the cooldown down, emitting nothing at all. -/
theorem runDet_cooldown (l : List Sample) (σ : DetState) (h : l.length ≤ σ.cd) :
    runDet σ l = ({ σ with total := σ.total + l.length, cd := σ.cd - l.length }, [], []) := by
  induction l generalizing σ with
  | nil => simp [runDet]
  | cons a l ih =>
      rw [runDet, processSample_cooldown σ a (by simp at h; omega)]
      dsimp only []
      rw [ih _ (by simp at h ⊢; omega)]
      simp only [List.append_nil, List.length_cons, Prod.mk.injEq, and_true]
      congr 1 <;> omega

/-- IDLE branch of the state machine switch. -/
theorem stateStep_idle (σ : DetState) (ax ay az mag r atv : ℚ) (ts : ℕ)
    (hst : σ.st = S.IDLE) :
    stateStep σ ax ay az mag r atv ts =
      (if atv ≤ r then
        ({ σ with st := S.CONFIRM, sc := 1, pk := mag, t0 := ts, zc := 0,
                  ps := decide (0 ≤ ax),
                  ap0 := |ax|, ap1 := |ay|, ap2 := |az|,
                  ae0 := ax * ax, ae1 := ay * ay, ae2 := az * az }, [])
      else (σ, [])) := by
  unfold stateStep
  rw [hst]

/-- CONFIRM branch, ratio below threshold: transient abort to IDLE (no
cooldown is armed). -/
theorem stateStep_confirm_abort (σ : DetState) (ax ay az mag r atv : ℚ) (ts : ℕ)
    (hst : σ.st = S.CONFIRM) (hr : ¬ atv ≤ r) :
    stateStep σ ax ay az mag r atv ts = ({ σ with st := S.IDLE }, []) := by
  unfold stateStep
  rw [hst]
  dsimp only []
  rw [if_neg hr]

/-- CONFIRM branch, ratio at or above threshold but sustained count not
yet reached: bookkeeping only. -/
theorem stateStep_confirm_continue (σ : DetState) (ax ay az mag r atv : ℚ) (ts : ℕ)
    (hst : σ.st = S.CONFIRM) (hr : atv ≤ r)
    (hsc : ¬ σ.cfg.min_sustained ≤ σ.sc + 1) :
    stateStep σ ax ay az mag r atv ts = (confirmUpd σ ax ay az mag, []) := by
  unfold stateStep
  rw [hst]
  dsimp only []
  rw [if_pos hr, if_neg (by simpa [confirmUpd] using hsc)]

/-- CONFIRM branch at the candidate moment with a failing cascade: the
reject code is recorded, the machine falls back to IDLE and the cooldown
is armed; no event is fired. -/
theorem stateStep_reject (σ : DetState) (ax ay az mag r atv : ℚ) (ts : ℕ)
    (hst : σ.st = S.CONFIRM) (hr : atv ≤ r)
    (hsc : σ.cfg.min_sustained ≤ σ.sc + 1)
    (hrc : check_reject (confirmUpd σ ax ay az mag) ≠ RejectCode.NONE) :
    stateStep σ ax ay az mag r atv ts =
      ({ confirmUpd σ ax ay az mag with
         lr := check_reject (confirmUpd σ ax ay az mag),
         st := S.IDLE, cd := σ.cfg.cooldown }, []) := by
  unfold stateStep
  rw [hst]
  dsimp only []
  rw [if_pos hr, if_pos (by simpa [confirmUpd] using hsc), if_pos hrc]

/-- CONFIRM branch at the candidate moment with a passing cascade: the
machine enters TRIGGERED and fires the trigger-edge event; the cooldown
counter is left untouched. -/
theorem stateStep_fire (σ : DetState) (ax ay az mag r atv : ℚ) (ts : ℕ)
    (hst : σ.st = S.CONFIRM) (hr : atv ≤ r)
    (hsc : σ.cfg.min_sustained ≤ σ.sc + 1)
    (hrc : check_reject (confirmUpd σ ax ay az mag) = RejectCode.NONE) :
    stateStep σ ax ay az mag r atv ts =
      ({ confirmUpd σ ax ay az mag with
         st := S.TRIGGERED, dur := (confirmUpd σ ax ay az mag).sc },
       [fireEv { confirmUpd σ ax ay az mag with
                 st := S.TRIGGERED, dur := (confirmUpd σ ax ay az mag).sc } ts r]) := by
  unfold stateStep
  rw [hst]
  dsimp only []
  rw [if_pos hr, if_pos (by simpa [confirmUpd] using hsc), if_neg (by simp [hrc])]

/-- TRIGGERED branch while the ratio stays at or above the exit
threshold: duration and peak bookkeeping only. -/
theorem stateStep_trig_hold (σ : DetState) (ax ay az mag r atv : ℚ) (ts : ℕ)
    (hst : σ.st = S.TRIGGERED) (hr : ¬ r < σ.cfg.sta_lta_detrigger) :
    stateStep σ ax ay az mag r atv ts =
      ({ σ with dur := σ.dur + 1, pk := max σ.pk mag }, []) := by
  unfold stateStep
  rw [hst]
  dsimp only []
  rw [if_neg hr]

/-- TRIGGERED branch when the ratio drops below the exit threshold: the
de-trigger event fires and the state machine is reset with cooldown. -/
theorem stateStep_detrig (σ : DetState) (ax ay az mag r atv : ℚ) (ts : ℕ)
    (hst : σ.st = S.TRIGGERED) (hr : r < σ.cfg.sta_lta_detrigger) :
    stateStep σ ax ay az mag r atv ts =
      (reset_st { σ with dur := σ.dur + 1, pk := max σ.pk mag },
       [fireEv { σ with dur := σ.dur + 1, pk := max σ.pk mag } ts r]) := by
  unfold stateStep
  rw [hst]
  dsimp only []
  rw [if_pos hr]

/-! ## Concrete configurations and runs

Legal configurations with one-sample STA/LTA windows make every
behaviour of the state machine reachable within a few samples, so that
the counterexamples and witnesses below are decidable evaluations of the
executable model. -/

/-- One-sample windows, constant adaptive threshold `1/2`, exit ratio
`2`, immediate sustain, permissive cascade checks, cooldown `5`. -/
def cfgW : Config :=
  { sample_rate_hz := 50, hp_alpha := 98/100, sta_window := 1, lta_window := 1,
    sta_lta_trigger := 1/2, sta_lta_detrigger := 2, min_amplitude_g := 0,
    min_sustained := 1, axis_coherence_min := 0, cooldown := 5,
    pwave_freq_min := 0, pwave_freq_max := 100, calib_window := 2500,
    adaptive_trig_min := 1/2, adaptive_trig_max := 1/2, periodicity_thresh := 3/5 }

/-- The constant test input `(1, 1, 0)` g at timestamp `i`.  With the
initial gravity guess `(0, 0, −1)` this input drives the three filtered
axis channels identically, so the axis-coherence and energy checks
pass. -/
def smpX (i : ℕ) : Sample := ⟨1, 1, 0, i⟩

/-- First call on a fresh `cfgW` detector: enters CONFIRM. -/
def runA := processSample (initDet cfgW) (smpX 1)

/-- Second call: the candidate moment; the cascade passes and the
trigger-edge event fires. -/
def runB := processSample runA.1 (smpX 2)

/-- Third call: the ratio (1) is below the exit ratio (2), so the
de-trigger event fires and the cooldown is armed. -/
def runC := processSample runB.1 (smpX 3)

/-- `cfgW` with a `pwave_freq_min` no zero-crossing count can reach, so
that the candidate moment is rejected with FREQUENCY. -/
def cfgWrej : Config := { cfgW with pwave_freq_min := 50 }

/-- First call on a fresh `cfgWrej` detector: enters CONFIRM. -/
def runR := processSample (initDet cfgWrej) (smpX 1)

/-- `cfgW` with a cooldown of 10, so that the 10th sample of the run
falls inside the post-de-trigger cooldown. -/
def cfgW10 : Config := { cfgW with cooldown := 10 }

/-- Nine samples on a fresh `cfgW10` detector: trigger at sample 2,
de-trigger at sample 3 (cooldown armed), samples 4–9 in cooldown. -/
def runN9 := runDet (initDet cfgW10) ((List.range 9).map (fun i => smpX (i + 1)))

/-- The 10th call, still inside the cooldown. -/
def runN10 := processSample runN9.1 (smpX 10)

/-- Default configuration with one-sample STA/LTA windows and an
unreachable `min_amplitude_g`, so the detector stays disarmed but emits
the throttled disarmed telemetry. -/
def cfgM : Config := { sta_window := 1, lta_window := 1, min_amplitude_g := 1000 }

/-- A device at rest, face up: the raw sample `(0, 0, −1)` g at
timestamp `i`.  This input coincides with the initial gravity guess, so
the linear acceleration and every filtered value is exactly zero. -/
def smpZ (i : ℕ) : Sample := ⟨0, 0, -1, i⟩

/-- Ten resting samples on a fresh `cfgM` detector: exactly one telemetry
record (at the 10th sample). -/
def runM := runDet (initDet cfgM) ((List.range 10).map (fun i => smpZ (i + 1)))

/-- A `cfgM` detector state holding one accumulated sample. -/
def stM1 := (processSample (initDet cfgM) (smpX 1)).1

/-! ## Claims -/

/-- C1, counterexample.  The claim asserts that after ANY event emission
— the trigger edge included — the detector enters a cooldown of
`cooldown` samples with no state transition and no event, the cooldown
counter counting down from `cooldown`.  On `cfgW` (cooldown = 5) the
trigger-edge event fires at sample 2, yet the cooldown counter is 0, and
the very next call both emits another event (the de-trigger edge) and
transitions TRIGGERED → IDLE. -/
theorem C1_counterexample :
    cfgW.cooldown = 5 ∧
    runB.2.1.length = 1 ∧ runB.1.st = S.TRIGGERED ∧ runB.1.cd = 0 ∧
    runC.2.1.length = 1 ∧ runC.1.st = S.IDLE := by
  decide

/-- C1, amended.  After a rejection or a de-trigger emission the detector
enters a cooldown of `cooldown` samples — during a run no longer than the
pending cooldown only the total counter advances and the cooldown counter
counts down, with no other state change and no emission — but the
trigger-edge emission arms no cooldown (the counter stays 0). -/
theorem C1_theorem (σ : DetState) (smp : Sample) (l : List Sample) :
    (l.length ≤ σ.cd →
      runDet σ l = ({ σ with total := σ.total + l.length, cd := σ.cd - l.length }, [], [])) ∧
    (RejectedAt σ smp →
      (processSample σ smp).1.cd = σ.cfg.cooldown ∧ (processSample σ smp).2.1 = []) ∧
    (DetrigAt σ smp →
      (processSample σ smp).1.cd = σ.cfg.cooldown ∧ (processSample σ smp).2.1.length = 1) ∧
    (TrigFireAt σ smp →
      (processSample σ smp).1.cd = 0 ∧ (processSample σ smp).2.1.length = 1) := by
  refine ⟨runDet_cooldown l σ, ?_, ?_, ?_⟩
  · rintro ⟨⟨⟨h0, hfull, hamp⟩, hst, hr, hsc⟩, hrc⟩
    rw [processSample_armed σ smp h0 hfull hamp,
        stateStep_reject (pushedOf σ smp) _ _ _ _ _ _ _ hst hr hsc hrc]
    exact ⟨rfl, rfl⟩
  · rintro ⟨⟨h0, hfull, hamp⟩, hst, hr⟩
    rw [processSample_armed σ smp h0 hfull hamp,
        stateStep_detrig (pushedOf σ smp) _ _ _ _ _ _ _ hst hr]
    exact ⟨rfl, rfl⟩
  · rintro ⟨⟨⟨h0, hfull, hamp⟩, hst, hr, hsc⟩, hrc⟩
    rw [processSample_armed σ smp h0 hfull hamp,
        stateStep_fire (pushedOf σ smp) _ _ _ _ _ _ _ hst hr hsc hrc]
    exact ⟨h0, rfl⟩

/-- C1, witness: the four parts of the amendment, each at a concrete
reachable input — a 3-sample run inside the cooldown armed by the
de-trigger at `runC`, the FREQUENCY rejection of the `cfgWrej` run, the
de-trigger edge of `runC`, and the trigger edge of `runB`. -/
theorem C1_witness :
    (runDet runC.1 [smpX 4, smpX 5, smpX 6] =
      ({ runC.1 with total := runC.1.total + 3, cd := runC.1.cd - 3 }, [], [])) ∧
    ((processSample runR.1 (smpX 2)).1.cd = runR.1.cfg.cooldown ∧
      (processSample runR.1 (smpX 2)).2.1 = []) ∧
    ((processSample runB.1 (smpX 3)).1.cd = runB.1.cfg.cooldown ∧
      (processSample runB.1 (smpX 3)).2.1.length = 1) ∧
    ((processSample runA.1 (smpX 2)).1.cd = 0 ∧
      (processSample runA.1 (smpX 2)).2.1.length = 1) :=
  ⟨(C1_theorem runC.1 (smpX 4) [smpX 4, smpX 5, smpX 6]).1 (by decide),
   (C1_theorem runR.1 (smpX 2) []).2.1 (by decide),
   (C1_theorem runB.1 (smpX 3) []).2.2.1 (by decide),
   (C1_theorem runA.1 (smpX 2) []).2.2.2 (by decide)⟩

/-- C2, counterexample.  The claim asserts `update_config` does not clear
the accumulated samples of a ring whose capacity is unchanged.  Re-applying
the very same configuration (all capacities unchanged) clears the STA
ring: its live count drops from 1 to 0. -/
theorem C2_counterexample :
    stM1.sta.n = 1 ∧ stM1.cfg = cfgM ∧
    (update_config stM1 cfgM).sta.cap = stM1.sta.cap ∧
    (update_config stM1 cfgM).sta.n = 0 := by
  decide

/-- C2, amended.  `update_config` swaps the configuration and re-binds
the four ring capacities, and `set_cap` unconditionally resets its ring:
all four rings are cleared on every `update_config`, whether or not a
capacity changes.  Filters, gravity estimator, state machine and counters
are untouched. -/
theorem C2_theorem (σ : DetState) (c : Config) :
    (update_config σ c).cfg = c ∧
    (update_config σ c).sta.n = 0 ∧ (update_config σ c).lta.n = 0 ∧
    (update_config σ c).cal.n = 0 ∧ (update_config σ c).per.n = 0 ∧
    (update_config σ c).sta.cap =
      (if 0 < c.sta_window ∧ c.sta_window ≤ σ.sta.maxN then c.sta_window else σ.sta.maxN) ∧
    (update_config σ c).lta.cap =
      (if 0 < c.lta_window ∧ c.lta_window ≤ σ.lta.maxN then c.lta_window else σ.lta.maxN) ∧
    (update_config σ c).cal.cap =
      (if 0 < c.calib_window ∧ c.calib_window ≤ σ.cal.maxN then c.calib_window else σ.cal.maxN) ∧
    (update_config σ c).per.cap =
      (if 0 < truncNat (4 * c.sample_rate_hz) ∧ truncNat (4 * c.sample_rate_hz) ≤ σ.per.maxN
       then truncNat (4 * c.sample_rate_hz) else σ.per.maxN) ∧
    (update_config σ c).hx = σ.hx ∧ (update_config σ c).hy = σ.hy ∧
    (update_config σ c).hz = σ.hz ∧ (update_config σ c).bpx = σ.bpx ∧
    (update_config σ c).bpy = σ.bpy ∧ (update_config σ c).bpz = σ.bpz ∧
    (update_config σ c).grav = σ.grav ∧ (update_config σ c).st = σ.st ∧
    (update_config σ c).sc = σ.sc ∧ (update_config σ c).cd = σ.cd ∧
    (update_config σ c).total = σ.total ∧ (update_config σ c).lr = σ.lr := by
  refine ⟨rfl, rfl, rfl, rfl, rfl, rfl, rfl, rfl, rfl, rfl, rfl, rfl, rfl, rfl,
    rfl, rfl, rfl, rfl, rfl, rfl, rfl⟩

/-- C3, counterexample.  The claim asserts the debug callback is invoked
on exactly the calls with `total % 10 = 0` and a full LTA ring.  On
`cfgW10` the 10th call has `total = 10` and a full LTA ring, but it falls
inside the cooldown armed by the de-trigger at sample 3, and the debug
callback is not invoked. -/
theorem C3_counterexample :
    runN9.1.total = 9 ∧ 0 < runN9.1.cd ∧ runN9.1.lta.full ∧
    runN10.1.total % 10 = 0 ∧ runN10.1.lta.full ∧ runN10.2.2 = [] := by
  decide

/-- C3, amended.  The debug callback is invoked (exactly once) on exactly
the calls that are not swallowed by an active cooldown, whose post-push
LTA ring is full, and whose total sample count is divisible by 10. -/
theorem C3_theorem (σ : DetState) (smp : Sample) :
    ((processSample σ smp).2.2 ≠ [] ↔
      σ.cd = 0 ∧ (pushedOf σ smp).lta.full ∧ (σ.total + 1) % 10 = 0) ∧
    (processSample σ smp).2.2.length ≤ 1 := by
  by_cases hcd : 0 < σ.cd
  · rw [processSample_cooldown σ smp hcd]
    simp
    omega
  · have h0 : σ.cd = 0 := by omega
    by_cases hfull : (pushedOf σ smp).lta.full
    · by_cases hamp : lOf σ smp < σ.cfg.min_amplitude_g
      · rw [processSample_disarmed σ smp h0 hfull hamp]
        by_cases hm : (σ.total + 1) % 10 = 0 <;> simp [hm, h0, hfull]
      · rw [processSample_armed σ smp h0 hfull hamp]
        by_cases hm : (σ.total + 1) % 10 = 0 <;> simp [hm, h0, hfull]
    · rw [processSample_notFull σ smp h0 hfull]
      simp [hfull]

/-! ## The rejection cascade, check by check -/

/-- The axis-coherence check of §4.5, as the code tests it. -/
@[reducible] def axisFail (σ : DetState) : Prop :=
  0 < max σ.ap0 (max σ.ap1 σ.ap2) ∧
  min σ.ap0 (min σ.ap1 σ.ap2) / max σ.ap0 (max σ.ap1 σ.ap2) < σ.cfg.axis_coherence_min

/-- The frequency check of §4.5, as the code tests it (guarded by
`ds > 0`). -/
@[reducible] def freqFail (σ : DetState) : Prop :=
  0 < (σ.sc : ℚ) * σ.cfg.dt ∧
  ((σ.zc : ℚ) / (2 * ((σ.sc : ℚ) * σ.cfg.dt)) < σ.cfg.pwave_freq_min ∨
   σ.cfg.pwave_freq_max < (σ.zc : ℚ) / (2 * ((σ.sc : ℚ) * σ.cfg.dt)))

/-- The periodicity check of §4.5, as the code tests it: the ring is
full and the autocorrelation peak is STRICTLY above the threshold. -/
@[reducible] def perFail (σ : DetState) : Prop :=
  σ.per.full ∧ σ.cfg.periodicity_thresh < autocorr σ.cfg σ.per

/-- The energy-distribution check of §4.5, as the code tests it. -/
@[reducible] def energyFail (σ : DetState) : Prop :=
  0 < σ.ae0 + σ.ae1 + σ.ae2 ∧
  85/100 < max σ.ae0 (max σ.ae1 σ.ae2) / (σ.ae0 + σ.ae1 + σ.ae2)

/-- `check_reject` runs the four checks in the fixed order axis
coherence, frequency, periodicity, energy distribution, and returns the
code of the first failing check (NONE when all pass). -/
theorem check_reject_spec (σ : DetState) :
    (check_reject σ = RejectCode.AXIS_COHERENCE ↔ axisFail σ) ∧
    (check_reject σ = RejectCode.FREQUENCY ↔ ¬ axisFail σ ∧ freqFail σ) ∧
    (check_reject σ = RejectCode.PERIODICITY ↔
      ¬ axisFail σ ∧ ¬ freqFail σ ∧ perFail σ) ∧
    (check_reject σ = RejectCode.ENERGY_DIST ↔
      ¬ axisFail σ ∧ ¬ freqFail σ ∧ ¬ perFail σ ∧ energyFail σ) ∧
    (check_reject σ = RejectCode.NONE ↔
      ¬ axisFail σ ∧ ¬ freqFail σ ∧ ¬ perFail σ ∧ ¬ energyFail σ) := by
  unfold check_reject axisFail freqFail perFail energyFail
  dsimp only []
  split_ifs with h1 h2 h3 h4 <;> simp_all

/-- A periodicity-boundary configuration: 15 Hz sampling (so the
periodicity ring capacity is 60 and the lag range is 6–10) and a
rejection threshold equal to the autocorrelation peak of `perAlt`. -/
def cfgP : Config := { sample_rate_hz := 15, periodicity_thresh := 9/10 }

/-- The periodicity ring after pushing 60 alternating samples 0,1,0,1,…
(cap 60, as `apply()` binds it for 15 Hz).  Its normalized
autocorrelation peak is exactly 9/10 (at lag 6). -/
def perAlt : Ring :=
  ((List.range 60).map (fun i => ((i % 2 : ℕ) : ℚ))).foldl Ring.push
    ((Ring.init 200).set_cap 60)

/-- A candidate state at the cascade evaluation: per-axis peaks and
energies all 1 (axis and energy checks pass), 15 sustained samples with
2 zero crossings (`f_est` = 1 Hz, in band), periodicity ring `perAlt`. -/
def stP : DetState :=
  { cfg := cfgP, hx := {}, hy := {}, hz := {}, bpx := {}, bpy := {}, bpz := {},
    grav := {}, sta := Ring.init 100, lta := Ring.init 1000, cal := Ring.init 5000,
    per := perAlt, st := S.CONFIRM, sc := 15, dur := 0, cd := 0, zc := 2,
    pk := 1, t0 := 0, ps := false, ap0 := 1, ap1 := 1, ap2 := 1,
    ae0 := 1, ae1 := 1, ae2 := 1, total := 100, lr := RejectCode.NONE }

/-- `stP` with the periodicity threshold lowered strictly below the
autocorrelation peak. -/
def stPlow : DetState := { stP with cfg := { cfgP with periodicity_thresh := 1/2 } }

/-- C5, counterexample.  The claim asserts the candidate is rejected with
PERIODICITY whenever the periodicity ring is full and the autocorrelation
peak is at or above (`≥`) `periodicity_thresh`.  At `stP` the ring is
full, the peak equals the threshold (both 9/10), the earlier checks pass
— yet `check_reject` returns NONE, because the code rejects only on
strict `>`. -/
theorem C5_counterexample :
    stP.per.full ∧ autocorr stP.cfg stP.per = 9/10 ∧
    stP.cfg.periodicity_thresh ≤ autocorr stP.cfg stP.per ∧
    check_reject stP = RejectCode.NONE := by
  decide

/-- C5, amended.  With a full periodicity ring (and the axis and
frequency checks passing), the candidate is rejected with PERIODICITY
exactly when the autocorrelation peak is STRICTLY greater than
`periodicity_thresh`; at or below the threshold the periodicity check
passes (the result is never PERIODICITY). -/
theorem C5_theorem (σ : DetState) :
    (σ.per.full → ¬ axisFail σ → ¬ freqFail σ →
      σ.cfg.periodicity_thresh < autocorr σ.cfg σ.per →
      check_reject σ = RejectCode.PERIODICITY) ∧
    (autocorr σ.cfg σ.per ≤ σ.cfg.periodicity_thresh →
      check_reject σ ≠ RejectCode.PERIODICITY) := by
  constructor
  · intro hfull ha hf hlt
    exact ((check_reject_spec σ).2.2.1).mpr ⟨ha, hf, hfull, hlt⟩
  · intro hle hper
    exact absurd (((check_reject_spec σ).2.2.1).mp hper).2.2.2 (not_lt.mpr hle)

/-- C5, witness: at `stPlow` the peak 9/10 strictly exceeds the threshold
1/2 and the candidate is rejected with PERIODICITY. -/
theorem C5_witness : check_reject stPlow = RejectCode.PERIODICITY :=
  (C5_theorem stPlow).1 (by decide) (by decide) (by decide) (by decide)

/-- C6.  The rejection cascade checks, in the fixed order axis coherence,
frequency, periodicity, energy distribution, and the first failing check
wins; the cascade is consulted exactly at the candidate moments
(`CascadeAt`), each of which leaves CONFIRM (so at most once per CONFIRM
episode), recording the first failing check's code in `lr` on rejection
and leaving `lr` untouched otherwise. -/
theorem C6_theorem (σ : DetState) (smp : Sample) :
    (check_reject σ = RejectCode.AXIS_COHERENCE ↔ axisFail σ) ∧
    (check_reject σ = RejectCode.FREQUENCY ↔ ¬ axisFail σ ∧ freqFail σ) ∧
    (check_reject σ = RejectCode.PERIODICITY ↔
      ¬ axisFail σ ∧ ¬ freqFail σ ∧ perFail σ) ∧
    (check_reject σ = RejectCode.ENERGY_DIST ↔
      ¬ axisFail σ ∧ ¬ freqFail σ ∧ ¬ perFail σ ∧ energyFail σ) ∧
    (CascadeAt σ smp → (processSample σ smp).1.st ≠ S.CONFIRM) ∧
    (RejectedAt σ smp →
      (processSample σ smp).1.lr = check_reject (candOf σ smp) ∧
      (processSample σ smp).1.st = S.IDLE) ∧
    (TrigFireAt σ smp →
      (processSample σ smp).1.st = S.TRIGGERED ∧
      (processSample σ smp).1.lr = σ.lr) ∧
    (¬ CascadeAt σ smp → σ.st ≠ S.TRIGGERED →
      (processSample σ smp).1.lr = σ.lr) := by
  refine ⟨(check_reject_spec σ).1, (check_reject_spec σ).2.1,
    (check_reject_spec σ).2.2.1, (check_reject_spec σ).2.2.2.1, ?_, ?_, ?_, ?_⟩
  · rintro ⟨⟨h0, hfull, hamp⟩, hst, hr, hsc⟩
    rw [processSample_armed σ smp h0 hfull hamp]
    by_cases hrc : check_reject (candOf σ smp) = RejectCode.NONE
    · rw [stateStep_fire (pushedOf σ smp) _ _ _ _ _ _ _ hst hr hsc hrc]
      simp
    · rw [stateStep_reject (pushedOf σ smp) _ _ _ _ _ _ _ hst hr hsc hrc]
      simp
  · rintro ⟨⟨⟨h0, hfull, hamp⟩, hst, hr, hsc⟩, hrc⟩
    rw [processSample_armed σ smp h0 hfull hamp,
        stateStep_reject (pushedOf σ smp) _ _ _ _ _ _ _ hst hr hsc hrc]
    exact ⟨rfl, rfl⟩
  · rintro ⟨⟨⟨h0, hfull, hamp⟩, hst, hr, hsc⟩, hrc⟩
    rw [processSample_armed σ smp h0 hfull hamp,
        stateStep_fire (pushedOf σ smp) _ _ _ _ _ _ _ hst hr hsc hrc]
    exact ⟨rfl, rfl⟩
  · intro hnc hnt
    by_cases hcd : 0 < σ.cd
    · rw [processSample_cooldown σ smp hcd]
    · have h0 : σ.cd = 0 := by omega
      by_cases hfull : (pushedOf σ smp).lta.full
      · by_cases hamp : lOf σ smp < σ.cfg.min_amplitude_g
        · rw [processSample_disarmed σ smp h0 hfull hamp]
          rfl
        · rw [processSample_armed σ smp h0 hfull (by exact hamp)]
          cases hst : σ.st with
          | IDLE =>
              rw [stateStep_idle (pushedOf σ smp) _ _ _ _ _ _ _ hst]
              split_ifs <;> rfl
          | CONFIRM =>
              by_cases hr : atOf σ smp ≤ rOf σ smp
              · have hsc : ¬ σ.cfg.min_sustained ≤ σ.sc + 1 := by
                  intro hsc
                  exact hnc ⟨⟨h0, hfull, hamp⟩, hst, hr, hsc⟩
                rw [stateStep_confirm_continue (pushedOf σ smp) _ _ _ _ _ _ _ hst hr hsc]
                rfl
              · rw [stateStep_confirm_abort (pushedOf σ smp) _ _ _ _ _ _ _ hst hr]
                rfl
          | TRIGGERED => exact absurd hst hnt
      · rw [processSample_notFull σ smp h0 hfull]
        rfl

/-- C6, witness: the `cfgWrej` run reaches the candidate moment at
sample 2; the axis check passes, the frequency check is the first to
fail, and FREQUENCY is recorded in `lr` while the machine returns to
IDLE. -/
theorem C6_witness :
    (processSample runR.1 (smpX 2)).1.lr = check_reject (candOf runR.1 (smpX 2)) ∧
    (processSample runR.1 (smpX 2)).1.st = S.IDLE ∧
    check_reject (candOf runR.1 (smpX 2)) = RejectCode.FREQUENCY :=
  ⟨((C6_theorem runR.1 (smpX 2)).2.2.2.2.2.1 (by decide)).1,
   ((C6_theorem runR.1 (smpX 2)).2.2.2.2.2.1 (by decide)).2,
   by decide⟩

/-- `clampQ`, the C++ `std::clamp` branch structure, agrees with the
specification's `clamp(x, lo, hi) = max(lo, min(x, hi))` whenever
`lo ≤ hi`. -/
theorem clampQ_eq_max_min (v lo hi : ℚ) (h : lo ≤ hi) :
    clampQ v lo hi = max lo (min v hi) := by
  unfold clampQ
  split_ifs with h1 h2
  · rw [min_eq_left (le_trans h1.le h), max_eq_left h1.le]
  · rw [min_eq_right h2.le, max_eq_right h]
  · rw [min_eq_left (not_lt.mp h2), max_eq_right (not_lt.mp h1)]

/-- C7.  Every telemetry record of a call carries as its adaptive
trigger threshold exactly
`clamp(sta_lta_trigger + √baseline_var · 100, adaptive_trig_min,
adaptive_trig_max)` (in `max`/`min` form, given `min ≤ max`), where the
baseline variance is the calibration-ring variance AFTER the ring is
updated with the current sample's magnitude; and on an armed IDLE sample
the CONFIRM transition is taken exactly when the ratio reaches that
threshold (`atOf`). -/
theorem C7_theorem (σ : DetState) (smp : Sample) :
    (σ.cfg.adaptive_trig_min ≤ σ.cfg.adaptive_trig_max →
      ∀ d ∈ (processSample σ smp).2.2,
        d.adaptive_trigger =
          max σ.cfg.adaptive_trig_min
            (min (σ.cfg.sta_lta_trigger +
                  ratSqrt ((σ.cal.push (magOf { σ with total := σ.total + 1 } smp)).var) * 100)
                 σ.cfg.adaptive_trig_max)) ∧
    (ArmedAt σ smp → σ.st = S.IDLE →
      ((processSample σ smp).1.st = S.CONFIRM ↔ atOf σ smp ≤ rOf σ smp)) := by
  constructor
  · intro hlh d hd
    have key : d.adaptive_trigger = atOf σ smp := by
      by_cases hcd : 0 < σ.cd
      · rw [processSample_cooldown σ smp hcd] at hd
        simp at hd
      · have h0 : σ.cd = 0 := by omega
        by_cases hfull : (pushedOf σ smp).lta.full
        · by_cases hamp : lOf σ smp < σ.cfg.min_amplitude_g
          · rw [processSample_disarmed σ smp h0 hfull hamp] at hd
            by_cases hm : (σ.total + 1) % 10 = 0
            · simp [hm] at hd
              rw [hd]
              rfl
            · simp [hm] at hd
          · rw [processSample_armed σ smp h0 hfull hamp] at hd
            by_cases hm : (σ.total + 1) % 10 = 0
            · simp [hm] at hd
              rw [hd]
              rfl
            · simp [hm] at hd
        · rw [processSample_notFull σ smp h0 hfull] at hd
          simp at hd
    rw [key]
    unfold atOf
    rw [clampQ_eq_max_min _ _ _ hlh]
    rfl
  · rintro ⟨h0, hfull, hamp⟩ hst
    rw [processSample_armed σ smp h0 hfull hamp,
        stateStep_idle (pushedOf σ smp) _ _ _ _ _ _ _ hst]
    by_cases hr : atOf σ smp ≤ rOf σ smp
    · simp [hr]
    · rw [if_neg hr]
      simp only [hr, iff_false]
      intro hcon
      rw [show (pushedOf σ smp, ([] : List SeismicEvent)).1.st = σ.st from rfl, hst] at hcon
      simp at hcon

/-- Nine resting samples on a fresh `cfgM` detector (no telemetry yet:
the 10th sample is the first with `total % 10 = 0`). -/
def runM9 := runDet (initDet cfgM) ((List.range 9).map (fun i => smpZ (i + 1)))

/-- C7, witness: the 10th resting sample emits one record, and its
adaptive trigger is the claimed clamp (here `4.5`, since the baseline
variance of the all-zero run is 0 and `3.5 ≤ 4.5 ≤ 8`). -/
theorem C7_witness :
    (processSample runM9.1 (smpZ 10)).2.2.length = 1 ∧
    (∀ d ∈ (processSample runM9.1 (smpZ 10)).2.2,
      d.adaptive_trigger =
        max runM9.1.cfg.adaptive_trig_min
          (min (runM9.1.cfg.sta_lta_trigger +
                ratSqrt ((runM9.1.cal.push
                  (magOf { runM9.1 with total := runM9.1.total + 1 } (smpZ 10))).var) * 100)
               runM9.1.cfg.adaptive_trig_max)) :=
  ⟨by decide, (C7_theorem runM9.1 (smpZ 10)).1 (by decide)⟩

/-- `set_cap` always yields a positive capacity when the backing
capacity is positive. -/
theorem Ring.set_cap_pos (r : Ring) (c : ℕ) (h : 0 < r.maxN) :
    0 < (r.set_cap c).cap := by
  show 0 < (if 0 < c ∧ c ≤ r.maxN then c else r.maxN)
  split_ifs with h1
  · omega
  · omega

/-- The state-machine switch never touches the filters, the gravity
estimator, the rings, the counters `total`/`cd`... beyond the state
fields it owns. -/
theorem stateStep_frame (σ : DetState) (ax ay az mag r atv : ℚ) (ts : ℕ) :
    (stateStep σ ax ay az mag r atv ts).1.grav = σ.grav ∧
    (stateStep σ ax ay az mag r atv ts).1.sta = σ.sta ∧
    (stateStep σ ax ay az mag r atv ts).1.lta = σ.lta ∧
    (stateStep σ ax ay az mag r atv ts).1.cal = σ.cal ∧
    (stateStep σ ax ay az mag r atv ts).1.per = σ.per ∧
    (stateStep σ ax ay az mag r atv ts).1.total = σ.total ∧
    (stateStep σ ax ay az mag r atv ts).1.cfg = σ.cfg := by
  unfold stateStep
  cases hst : σ.st <;> dsimp only [] <;> split_ifs <;>
    exact ⟨rfl, rfl, rfl, rfl, rfl, rfl, rfl⟩

/-- A call with no pending cooldown always updates the gravity estimator
and pushes the magnitude of the filtered sample into the STA ring, and
advances the total counter — whatever the state machine then does. -/
theorem processSample_phys (σ : DetState) (smp : Sample) (h0 : σ.cd = 0) :
    (processSample σ smp).1.grav = σ.grav.update smp.ax smp.ay smp.az ∧
    (processSample σ smp).1.sta = σ.sta.push (magOf { σ with total := σ.total + 1 } smp) ∧
    (processSample σ smp).1.total = σ.total + 1 := by
  by_cases hfull : (pushedOf σ smp).lta.full
  · by_cases hamp : lOf σ smp < σ.cfg.min_amplitude_g
    · rw [processSample_disarmed σ smp h0 hfull hamp]
      exact ⟨rfl, rfl, rfl⟩
    · rw [processSample_armed σ smp h0 hfull hamp]
      refine ⟨?_, ?_, ?_⟩
      · rw [(stateStep_frame (pushedOf σ smp) _ _ _ _ _ _ _).1]
        rfl
      · rw [(stateStep_frame (pushedOf σ smp) _ _ _ _ _ _ _).2.1]
        rfl
      · rw [(stateStep_frame (pushedOf σ smp) _ _ _ _ _ _ _).2.2.2.2.2.1]
        rfl
  · rw [processSample_notFull σ smp h0 hfull]
    exact ⟨rfl, rfl, rfl⟩

/-- While the LTA ring cannot become full during a run, no event is
emitted (the state machine is never consulted). -/
theorem runDet_events_nil (l : List Sample) (σ : DetState)
    (h : σ.lta.n + l.length < σ.lta.cap) : (runDet σ l).2.1 = [] := by
  induction l generalizing σ with
  | nil => rfl
  | cons a t ih =>
      rw [runDet]
      dsimp only []
      by_cases hcd : 0 < σ.cd
      · rw [processSample_cooldown σ a hcd]
        dsimp only []
        have ht : ({ σ with total := σ.total + 1, cd := σ.cd - 1 } : DetState).lta.n
            + t.length < ({ σ with total := σ.total + 1, cd := σ.cd - 1 } : DetState).lta.cap := by
          show σ.lta.n + t.length < σ.lta.cap
          simp at h
          omega
        simp [ih _ ht]
      · have h0 : σ.cd = 0 := by omega
        have hlt : (pushedOf σ a).lta.n < (pushedOf σ a).lta.cap := by
          have e1 : (pushedOf σ a).lta =
              σ.lta.push (magOf { σ with total := σ.total + 1 } a) := rfl
          rw [e1, Ring.push_n, Ring.push_cap]
          simp at h
          split_ifs with hfc
          · omega
          · omega
        have hnf : ¬ (pushedOf σ a).lta.full := by
          unfold Ring.full
          simp
          omega
        rw [processSample_notFull σ a h0 hnf]
        dsimp only []
        have ht : (pushedOf σ a).lta.n + t.length < (pushedOf σ a).lta.cap := by
          have e1 : (pushedOf σ a).lta =
              σ.lta.push (magOf { σ with total := σ.total + 1 } a) := rfl
          rw [e1, Ring.push_n, Ring.push_cap] at hlt ⊢
          simp at h
          split_ifs with hfc
          · omega
          · split_ifs at hlt
            omega
        simp [ih _ ht]

/-- C9.  For the first `lta_window − 1` calls after construction (with a
legal `lta_window`) or after `reset` (on a state whose LTA capacity is
bound to its configured window), no event is emitted, whatever the
inputs. -/
theorem C9_theorem (cfg : Config) (σ : DetState) (l : List Sample) :
    (0 < cfg.lta_window → cfg.lta_window ≤ 1000 → l.length < cfg.lta_window →
      (runDet (initDet cfg) l).2.1 = []) ∧
    (σ.lta.cap = σ.cfg.lta_window → l.length < σ.cfg.lta_window →
      (runDet (resetDet σ) l).2.1 = []) := by
  constructor
  · intro h1 h2 h3
    apply runDet_events_nil
    have hcap : (initDet cfg).lta.cap = cfg.lta_window := by
      show (if 0 < cfg.lta_window ∧ cfg.lta_window ≤ 1000 then cfg.lta_window else 1000)
        = cfg.lta_window
      rw [if_pos ⟨h1, h2⟩]
    rw [hcap, show (initDet cfg).lta.n = 0 from rfl]
    omega
  · intro h1 h2
    apply runDet_events_nil
    rw [show (resetDet σ).lta.n = 0 from rfl,
        show (resetDet σ).lta.cap = σ.lta.cap from rfl, h1]
    omega

/-- A default-configuration detector state holding one resting sample. -/
def stD1 := (processSample (initDet {}) (smpZ 1)).1

/-- C9, witness: a 1-sample run on a freshly constructed default
detector (`lta_window = 500`) and a 2-sample run on a freshly reset
default-configuration state emit nothing. -/
theorem C9_witness :
    (runDet (initDet {}) [smpZ 1]).2.1 = [] ∧
    (runDet (resetDet stD1) [smpZ 1, smpZ 2]).2.1 = [] :=
  ⟨(C9_theorem {} stD1 [smpZ 1]).1 (by decide) (by decide) (by decide),
   (C9_theorem {} stD1 [smpZ 1, smpZ 2]).2 (by decide) (by decide)⟩

/-- C10.  `reset()` arms the cooldown: right after it the cooldown
counter equals the configured `cooldown`, and any run no longer than that
only advances the total counter (from 0) while the cooldown counts down,
with nothing else updated and nothing emitted.  A freshly constructed
detector instead starts with cooldown 0, and its very first call is
processed fully: the gravity estimator is updated and the sample's
filtered magnitude enters the STA ring. -/
theorem C10_theorem (cfg : Config) (σ : DetState) (smp : Sample) (l : List Sample) :
    (initDet cfg).cd = 0 ∧
    (resetDet σ).cd = σ.cfg.cooldown ∧
    (0 < σ.cd →
      processSample σ smp = ({ σ with total := σ.total + 1, cd := σ.cd - 1 }, [], [])) ∧
    (l.length ≤ σ.cfg.cooldown →
      runDet (resetDet σ) l =
        ({ resetDet σ with total := l.length, cd := σ.cfg.cooldown - l.length }, [], [])) ∧
    ((processSample (initDet cfg) smp).1.grav =
      (initDet cfg).grav.update smp.ax smp.ay smp.az ∧
     (processSample (initDet cfg) smp).1.sta.n = 1 ∧
     (processSample (initDet cfg) smp).1.total = 1) := by
  refine ⟨rfl, rfl, processSample_cooldown σ smp, ?_, ?_, ?_, ?_⟩
  · intro h
    rw [runDet_cooldown l (resetDet σ) h]
    simp only [Prod.mk.injEq, and_true]
    have e1 : (resetDet σ).total = 0 := rfl
    have e2 : (resetDet σ).cd = σ.cfg.cooldown := rfl
    rw [e1, e2]
    congr 1
    omega
  · exact (processSample_phys (initDet cfg) smp rfl).1
  · rw [(processSample_phys (initDet cfg) smp rfl).2.1, Ring.push_n,
        show (initDet cfg).sta.n = 0 from rfl]
    have hpos : 0 < (initDet cfg).sta.cap :=
      Ring.set_cap_pos (Ring.init 100) cfg.sta_window (by decide)
    split_ifs with hfc
    · omega
    · rfl
  · exact (processSample_phys (initDet cfg) smp rfl).2.2

/-- C10, witness: after resetting the one-sample `cfgM` state, the
cooldown counter is 500 and a 3-sample run only advances `total` to 3
and the cooldown down to 497; the fresh `cfgM` detector's first call
updates the gravity estimator and fills the STA ring. -/
theorem C10_witness :
    (0 < stM1.cd → processSample stM1 (smpZ 2) =
      ({ stM1 with total := stM1.total + 1, cd := stM1.cd - 1 }, [], [])) ∧
    runDet (resetDet stM1) [smpZ 1, smpZ 2, smpZ 3] =
      ({ resetDet stM1 with total := 3, cd := stM1.cfg.cooldown - 3 }, [], []) ∧
    (processSample (initDet cfgM) (smpZ 1)).1.sta.n = 1 :=
  ⟨(C10_theorem cfgM stM1 (smpZ 2) []).2.2.1,
   (C10_theorem cfgM stM1 (smpZ 2) [smpZ 1, smpZ 2, smpZ 3]).2.2.2.1 (by decide),
   (C10_theorem cfgM stM1 (smpZ 1) []).2.2.2.2.2.1⟩

/-! ## Ring window theory (C8) -/

/-- The live window of a ring, oldest first, through the indexed
accessor `at`. -/
def winList (r : Ring) : List ℚ := (List.range r.n).map r.atIdx

/-- Well-formedness of a ring state together with the meaning of its
running sums: the backing array has length `MAX_N`, the bound capacity
is legal, head and count are in range, and `s`/`sq` are the sum and the
sum of squares of the live window.  Every reachable ring state satisfies
it (`mkRun_inv`). -/
def RingInv (r : Ring) : Prop :=
  r.b.length = r.maxN ∧ r.cap ≤ r.maxN ∧ 0 < r.cap ∧ r.n ≤ r.cap ∧ r.h < r.cap ∧
  r.s = (winList r).sum ∧ r.sq = ((winList r).map (fun x => x * x)).sum

/-- Adding `d ∈ (0, cap)` to `h < cap` moves it, modulo `cap`. -/
theorem add_mod_ne (h d cap : ℕ) (hh : h < cap) (hd0 : 0 < d) (hdc : d < cap) :
    (h + d) % cap ≠ h := by
  rcases Nat.lt_or_ge (h + d) cap with hlt | hge
  · rw [Nat.mod_eq_of_lt hlt]
    omega
  · rw [Nat.mod_eq_sub_mod hge, Nat.mod_eq_of_lt (by omega)]
    omega

/-- Pushing on a non-full ring leaves the first `n` window slots
unchanged. -/
theorem Ring.push_atIdx_lt (r : Ring) (v : ℚ) (hb : r.b.length = r.maxN)
    (hcm : r.cap ≤ r.maxN) (hh : r.h < r.cap) (hn : r.n ≤ r.cap)
    (hnf : ¬ r.n = r.cap) (i : ℕ) (hi : i < r.n) :
    (r.push v).atIdx i = r.atIdx i := by
  unfold Ring.atIdx Ring.push
  dsimp only []
  rw [if_neg hnf]
  dsimp only []
  rw [if_pos (by omega : i < r.n + 1), if_pos hi]
  have e1 : (r.h + 1) % r.cap + r.cap - (r.n + 1) + i
      = (r.h + 1) % r.cap + (r.cap - (r.n + 1) + i) := by omega
  have e2 : ((r.h + 1) % r.cap + (r.cap - (r.n + 1) + i)) % r.cap
      = (r.h + 1 + (r.cap - (r.n + 1) + i)) % r.cap := Nat.mod_add_mod _ _ _
  have e3 : r.h + 1 + (r.cap - (r.n + 1) + i) = r.h + r.cap - r.n + i := by omega
  rw [e1, e2, e3]
  have hne : (r.h + r.cap - r.n + i) % r.cap ≠ r.h := by
    have e4 : r.h + r.cap - r.n + i = r.h + (r.cap - r.n + i) := by omega
    rw [e4]
    exact add_mod_ne r.h _ r.cap hh (by omega) (by omega)
  simp [List.getD_eq_getElem?_getD, List.getElem?_set_ne (Ne.symm hne)]

/-- Pushing on a non-full ring writes the new value at window slot `n`. -/
theorem Ring.push_atIdx_last (r : Ring) (v : ℚ) (hb : r.b.length = r.maxN)
    (hcm : r.cap ≤ r.maxN) (hh : r.h < r.cap) (hn : r.n ≤ r.cap)
    (hnf : ¬ r.n = r.cap) :
    (r.push v).atIdx r.n = v := by
  unfold Ring.atIdx Ring.push
  dsimp only []
  rw [if_neg hnf]
  dsimp only []
  rw [if_pos (by omega : r.n < r.n + 1)]
  have e1 : (r.h + 1) % r.cap + r.cap - (r.n + 1) + r.n
      = (r.h + 1) % r.cap + (r.cap - (r.n + 1) + r.n) := by omega
  have e2 : ((r.h + 1) % r.cap + (r.cap - (r.n + 1) + r.n)) % r.cap
      = (r.h + 1 + (r.cap - (r.n + 1) + r.n)) % r.cap := Nat.mod_add_mod _ _ _
  have e3 : r.h + 1 + (r.cap - (r.n + 1) + r.n) = r.h + r.cap := by omega
  rw [e1, e2, e3, Nat.add_mod_right, Nat.mod_eq_of_lt hh]
  simp [List.getD_eq_getElem?_getD, List.getElem?_set_self, show r.h < r.b.length by omega]

/-- Pushing on a full ring shifts the window: slot `i` becomes what slot
`i+1` held. -/
theorem Ring.push_atIdx_full (r : Ring) (v : ℚ) (hb : r.b.length = r.maxN)
    (hcm : r.cap ≤ r.maxN) (hh : r.h < r.cap) (hf : r.n = r.cap)
    (i : ℕ) (hi : i + 1 < r.n) :
    (r.push v).atIdx i = r.atIdx (i + 1) := by
  unfold Ring.atIdx Ring.push
  dsimp only []
  rw [if_pos hf]
  dsimp only []
  rw [if_pos (by omega : i < r.n), if_pos hi]
  have e2 : ((r.h + 1) % r.cap + r.cap - r.n + i) % r.cap
      = (r.h + 1 + (r.cap - r.n + i)) % r.cap := by
    have e1 : (r.h + 1) % r.cap + r.cap - r.n + i
        = (r.h + 1) % r.cap + (r.cap - r.n + i) := by omega
    rw [e1]
    exact Nat.mod_add_mod _ _ _
  have e3 : r.h + 1 + (r.cap - r.n + i) = r.h + r.cap - r.n + (i + 1) := by omega
  rw [e2, e3]
  have hne : (r.h + r.cap - r.n + (i + 1)) % r.cap ≠ r.h := by
    have e4 : r.h + r.cap - r.n + (i + 1) = r.h + (r.cap - r.n + (i + 1)) := by omega
    rw [e4]
    exact add_mod_ne r.h _ r.cap hh (by omega) (by omega)
  simp [List.getD_eq_getElem?_getD, List.getElem?_set_ne (Ne.symm hne)]

/-- Pushing on a full ring writes the new value at the last window
slot. -/
theorem Ring.push_atIdx_full_last (r : Ring) (v : ℚ) (hb : r.b.length = r.maxN)
    (hcm : r.cap ≤ r.maxN) (hh : r.h < r.cap) (hf : r.n = r.cap) (hc : 0 < r.cap) :
    (r.push v).atIdx (r.n - 1) = v := by
  unfold Ring.atIdx Ring.push
  dsimp only []
  rw [if_pos hf]
  dsimp only []
  rw [if_pos (by omega : r.n - 1 < r.n)]
  have e2 : ((r.h + 1) % r.cap + r.cap - r.n + (r.n - 1)) % r.cap
      = (r.h + 1 + (r.cap - r.n + (r.n - 1))) % r.cap := by
    have e1 : (r.h + 1) % r.cap + r.cap - r.n + (r.n - 1)
        = (r.h + 1) % r.cap + (r.cap - r.n + (r.n - 1)) := by omega
    rw [e1]
    exact Nat.mod_add_mod _ _ _
  have e3 : r.h + 1 + (r.cap - r.n + (r.n - 1)) = r.h + r.cap := by omega
  rw [e2, e3, Nat.add_mod_right, Nat.mod_eq_of_lt hh]
  simp [List.getD_eq_getElem?_getD, List.getElem?_set_self, show r.h < r.b.length by omega]

/-- The evicted array slot on a full push is the oldest window element. -/
theorem Ring.old_eq_atIdx (r : Ring) (hh : r.h < r.cap) (hf : r.n = r.cap)
    (hc : 0 < r.cap) : r.b.getD r.h 0 = r.atIdx 0 := by
  unfold Ring.atIdx
  rw [if_pos (by omega : 0 < r.n)]
  have e : r.h + r.cap - r.n + 0 = r.h := by omega
  rw [e, Nat.mod_eq_of_lt hh]

/-- The running-sum bookkeeping of a full push. -/
theorem Ring.push_s_full (r : Ring) (v : ℚ) (hf : r.n = r.cap) :
    (r.push v).s = r.s - r.b.getD r.h 0 + v ∧
    (r.push v).sq = r.sq - r.b.getD r.h 0 * r.b.getD r.h 0 + v * v := by
  unfold Ring.push
  dsimp only []
  rw [if_pos hf]
  exact ⟨rfl, rfl⟩

/-- The running-sum bookkeeping of a non-full push. -/
theorem Ring.push_s_notFull (r : Ring) (v : ℚ) (hnf : ¬ r.n = r.cap) :
    (r.push v).s = r.s + v ∧ (r.push v).sq = r.sq + v * v := by
  unfold Ring.push
  dsimp only []
  rw [if_neg hnf]
  exact ⟨rfl, rfl⟩

/-- The window after a non-full push is the old window with the new
value appended. -/
theorem winList_push_notFull (r : Ring) (v : ℚ) (hb : r.b.length = r.maxN)
    (hcm : r.cap ≤ r.maxN) (hh : r.h < r.cap) (hn : r.n ≤ r.cap)
    (hnf : ¬ r.n = r.cap) :
    winList (r.push v) = winList r ++ [v] := by
  unfold winList
  have hn' : (r.push v).n = r.n + 1 := by
    rw [Ring.push_n, if_neg hnf]
  rw [hn', List.range_succ, List.map_append]
  congr 1
  · apply List.map_congr_left
    intro i hi
    exact Ring.push_atIdx_lt r v hb hcm hh hn hnf i (List.mem_range.mp hi)
  · simp [Ring.push_atIdx_last r v hb hcm hh hn hnf]

/-- The window after a full push is the old window's tail with the new
value appended. -/
theorem winList_push_full (r : Ring) (v : ℚ) (hb : r.b.length = r.maxN)
    (hcm : r.cap ≤ r.maxN) (hh : r.h < r.cap) (hf : r.n = r.cap) (hc : 0 < r.cap) :
    winList (r.push v) = (winList r).tail ++ [v] := by
  unfold winList
  have hn' : (r.push v).n = r.n := by
    rw [Ring.push_n, if_pos hf]
  obtain ⟨m, hm⟩ : ∃ m, r.n = m + 1 := ⟨r.n - 1, by omega⟩
  rw [hn', hm]
  conv_lhs => rw [List.range_succ, List.map_append]
  conv_rhs => rw [List.range_succ_eq_map, List.map_cons, List.tail_cons, List.map_map]
  congr 1
  · apply List.map_congr_left
    intro i hi
    have hi' : i + 1 < r.n := by
      have := List.mem_range.mp hi
      omega
    exact Ring.push_atIdx_full r v hb hcm hh hf i hi'
  · have : r.n - 1 = m := by omega
    simp [← this, Ring.push_atIdx_full_last r v hb hcm hh hf hc]

/-- `RingInv` is preserved by `push`. -/
theorem RingInv.push (r : Ring) (v : ℚ) (hInv : RingInv r) : RingInv (r.push v) := by
  obtain ⟨hb, hcm, hc, hn, hh, hs, hsq⟩ := hInv
  have hbl : (r.push v).b.length = r.b.length := by
    unfold Ring.push
    dsimp only []
    split <;> simp
  have hcap := Ring.push_cap r v
  have hmax := Ring.push_maxN r v
  have hhd : (r.push v).h < (r.push v).cap := by
    have : (r.push v).h = ((if r.n = r.cap then r.h else r.h) + 1) % r.cap := by
      unfold Ring.push
      dsimp only []
      split <;> rfl
    rw [this, hcap]
    simp
    exact Nat.mod_lt _ hc
  by_cases hf : r.n = r.cap
  · have hw := winList_push_full r v hb hcm hh hf hc
    have hold := Ring.old_eq_atIdx r hh hf hc
    have hps := Ring.push_s_full r v hf
    have hdec : winList r = r.atIdx 0 :: (winList r).tail := by
      unfold winList
      obtain ⟨m, hm⟩ : ∃ m, r.n = m + 1 := ⟨r.n - 1, by omega⟩
      rw [hm, List.range_succ_eq_map, List.map_cons, List.tail_cons]
    refine ⟨by rw [hbl, hb, hmax], by rw [hcap, hmax]; exact hcm, by rw [hcap]; exact hc,
      ?_, hhd, ?_, ?_⟩
    · rw [Ring.push_n, if_pos hf, hcap]
      omega
    · have hsum : (winList r).sum = r.atIdx 0 + (winList r).tail.sum := by
        conv_lhs => rw [hdec]
        rw [List.sum_cons]
      rw [hps.1, hold, hw, List.sum_append, hs, hsum]
      simp only [List.sum_cons, List.sum_nil]
      ring
    · have hsum : ((winList r).map (fun x => x * x)).sum
          = r.atIdx 0 * r.atIdx 0 + ((winList r).tail.map (fun x => x * x)).sum := by
        conv_lhs => rw [hdec]
        rw [List.map_cons, List.sum_cons]
      rw [hps.2, hold, hw, List.map_append, List.sum_append, hsq, hsum]
      simp only [List.map_cons, List.map_nil, List.sum_cons, List.sum_nil]
      ring
  · have hw := winList_push_notFull r v hb hcm hh hn hf
    have hps := Ring.push_s_notFull r v hf
    refine ⟨by rw [hbl, hb, hmax], by rw [hcap, hmax]; exact hcm, by rw [hcap]; exact hc,
      ?_, hhd, ?_, ?_⟩
    · rw [Ring.push_n, if_neg hf, hcap]
      omega
    · rw [hps.1, hw, List.sum_append, hs]
      simp only [List.sum_cons, List.sum_nil]
      ring
    · rw [hps.2, hw, List.map_append, List.sum_append, hsq]
      simp only [List.map_cons, List.map_nil, List.sum_cons, List.sum_nil]
      ring

/-- The ring obtained by pushing the samples of `vs`, in order, into a
freshly capacity-bound ring (this is every reachable ring state). -/
def mkRun (m c : ℕ) (vs : List ℚ) : Ring :=
  vs.foldl Ring.push ((Ring.init m).set_cap c)

/-- `RingInv` holds after `set_cap` on a fresh ring. -/
theorem RingInv.setCap (m c : ℕ) (hm : 0 < m) :
    RingInv ((Ring.init m).set_cap c) := by
  refine ⟨by simp [Ring.init, Ring.set_cap, Ring.reset], ?_, ?_, ?_, ?_, rfl, rfl⟩
  · show (if 0 < c ∧ c ≤ m then c else m) ≤ m
    split_ifs with h1
    · omega
    · omega
  · show 0 < (if 0 < c ∧ c ≤ m then c else m)
    split_ifs with h1
    · omega
    · omega
  · show 0 ≤ (if 0 < c ∧ c ≤ m then c else m)
    omega
  · show 0 < (if 0 < c ∧ c ≤ m then c else m)
    split_ifs with h1
    · omega
    · omega

/-- Every reachable ring state satisfies `RingInv`. -/
theorem mkRun_inv (m c : ℕ) (vs : List ℚ) (hm : 0 < m) : RingInv (mkRun m c vs) := by
  unfold mkRun
  have base := RingInv.setCap m c hm
  generalize (Ring.init m).set_cap c = r at base ⊢
  induction vs generalizing r with
  | nil => exact base
  | cons a t ih => exact ih (r.push a) (RingInv.push r a base)

/-- C8.  For every sequence of pushes into a fresh ring (exact
arithmetic): a push on a full ring keeps the live count and subtracts
the evicted oldest element from both running sums; a push on a non-full
ring grows the count by one; `avg` is 0 on an empty ring and the
arithmetic mean of the live window otherwise; and `var` is
`max 0 (E[x²] − (E[x])²)` over the live window. -/
theorem C8_theorem (m c : ℕ) (vs : List ℚ) (v : ℚ) (hm : 0 < m) :
    ((mkRun m c vs).full →
      ((mkRun m c vs).push v).n = (mkRun m c vs).n ∧
      ((mkRun m c vs).push v).s = (mkRun m c vs).s - (mkRun m c vs).atIdx 0 + v ∧
      ((mkRun m c vs).push v).sq =
        (mkRun m c vs).sq - (mkRun m c vs).atIdx 0 * (mkRun m c vs).atIdx 0 + v * v) ∧
    (¬ (mkRun m c vs).full → ((mkRun m c vs).push v).n = (mkRun m c vs).n + 1) ∧
    ((mkRun m c vs).n = 0 → (mkRun m c vs).avg = 0) ∧
    (0 < (mkRun m c vs).n →
      (mkRun m c vs).avg = (winList (mkRun m c vs)).sum / ((mkRun m c vs).n : ℚ)) ∧
    (mkRun m c vs).var =
      max 0 (((winList (mkRun m c vs)).map (fun x => x * x)).sum / ((mkRun m c vs).n : ℚ)
             - ((winList (mkRun m c vs)).sum / ((mkRun m c vs).n : ℚ))
               * ((winList (mkRun m c vs)).sum / ((mkRun m c vs).n : ℚ))) := by
  obtain ⟨hb, hcm, hc, hn, hh, hs, hsq⟩ := mkRun_inv m c vs hm
  set r := mkRun m c vs with hr
  constructor
  · intro hfb
    have hf : r.n = r.cap := by
      unfold Ring.full at hfb
      simpa using hfb
    have hps := Ring.push_s_full r v hf
    have hold := Ring.old_eq_atIdx r hh hf hc
    refine ⟨by rw [Ring.push_n, if_pos hf], ?_, ?_⟩
    · rw [hps.1, hold]
    · rw [hps.2, hold]
  refine ⟨?_, ?_, ?_, ?_⟩
  · intro hfb
    have hf : ¬ r.n = r.cap := by
      unfold Ring.full at hfb
      simpa using hfb
    rw [Ring.push_n, if_neg hf]
  · intro h0
    unfold Ring.avg
    rw [if_neg (by omega)]
  · intro h0
    unfold Ring.avg
    rw [if_pos h0, hs]
  · unfold Ring.var
    split_ifs with h2
    · rcases Nat.lt_or_ge r.n 1 with h1 | h1
      · have h0 : r.n = 0 := by omega
        have hwe : winList r = [] := by
          unfold winList
          rw [h0]
          rfl
        rw [hwe, h0]
        norm_num
      · have h1' : r.n = 1 := by omega
        have hwe : winList r = [r.atIdx 0] := by
          unfold winList
          rw [h1']
          rfl
        rw [hwe, h1']
        simp
    · dsimp only []
      rw [← hs, ← hsq]
      unfold Ring.avg
      rw [if_pos (show 0 < r.n by omega)]
      rcases le_or_lt (r.sq / (r.n : ℚ) - r.s / (r.n : ℚ) * (r.s / (r.n : ℚ))) 0 with hv | hv
      · rw [if_neg (not_lt.mpr hv), max_eq_left hv]
      · rw [if_pos hv, max_eq_right hv.le]

/-- C8, witness: a capacity-2 ring in a backing array of 3 after pushing
`[1, 2, 3]` is full; pushing 4 keeps the count at 2 and subtracts the
evicted oldest element (2) from the running sum. -/
theorem C8_witness :
    0 < 3 ∧ ((mkRun 3 2 [1, 2, 3]).push 4).n = (mkRun 3 2 [1, 2, 3]).n ∧
    ((mkRun 3 2 [1, 2, 3]).push 4).s = (mkRun 3 2 [1, 2, 3]).s - (mkRun 3 2 [1, 2, 3]).atIdx 0 + 4 :=
  ⟨by decide, ((C8_theorem 3 2 [1, 2, 3] 4 (by decide)).1 (by decide)).1,
   ((C8_theorem 3 2 [1, 2, 3] 4 (by decide)).1 (by decide)).2.1⟩

/-- C4, code bug.  The claim (with the spec) says every telemetry record
carries the raw pre-filter magnitude in `raw_mag`; the code passes the
post-filter magnitude for both `raw_mag` and `filt_mag`
(`emit_dbg(mag, mag, …)`).  On the `cfgM` resting run the 10th sample
emits one record whose `raw_mag` equals its `filt_mag` (both 0, the
post-filter magnitude) and differs from the raw magnitude 1 of the
constant raw input `(0, 0, −1)`. -/
theorem C4_theorem :
    runM.2.2.length = 1 ∧
    ∀ d ∈ runM.2.2, d.raw_mag = d.filt_mag ∧
      d.raw_mag ≠ ratSqrt (0 * 0 + 0 * 0 + (-1) * (-1)) := by
  decide

end Sinyalist
